import Mathlib

/-!
Verification of the repository-analytics pipeline.

Shallow embedding of the analytics code of this repository:

* `get_api_data` — the polling fetcher of `pages/03_Repo_analytics.py`
  (retry loop over HTTP statuses 200 / 202 / 403 / other, with a 10-second
  sleep between 202 retries);
* the code-frequency tab of `01_Repository_analytics.py` (epoch-seconds to
  calendar date, date-range filter, `positive_deletions`, and the two
  cumulative-sum columns);
* the commit-activity week-over-week metric
  (`series.pct_change().iloc[-1] * 100`);
* the contributor ranking
  (`groupby("author_login")["total_activity"].sum().sort_values(ascending=False)`);
* `load_data` — the CSV loader with its catch-all exception handlers.

Python / pandas semantics that the embedding mirrors:

* `pandas.Series.sort_values(ascending=False)` routes through
  `pandas.core.sorting.nargsort`, which for `ascending=False` first
  reverses the values and the index, then computes an ascending argsort,
  and finally reverses the resulting indexer; with a stable underlying
  sort (numpy's introsort falls back to insertion sort below 16
  elements, and `kind="mergesort"` always) the two reversals cancel for
  ties, so the descending order preserves the original relative order of
  equal values (pandas regression test for GH 28697).
* `Series.pct_change()` puts NaN in the first position; `.iloc[-1]` on an
  empty series raises `IndexError`.
* `groupby(key)` sorts the group keys ascending (default `sort=True`).
* A non-empty Python string is truthy; `None` is falsy.
-/

/-! ## Python values and the polling fetcher `get_api_data` -/

/-- A Python value as returned by `get_api_data`: `None`, a `str`, or a
parsed-JSON payload.  The payload is kept opaque (its raw text) together
with its Python truthiness, which callers test with `if data:`. -/
inductive PyValue where
  | none
  | str (s : String)
  | json (payload : String) (isTruthy : Bool)
deriving DecidableEq, Repr

/-- Python truthiness of a `PyValue`: `None` is falsy, a string is truthy
iff non-empty, a JSON document carries its own truthiness. -/
def PyValue.truthy : PyValue → Bool
  | .none => false
  | .str s => !(s == "")
  | .json _ t => t

/-- An HTTP response as seen by `get_api_data`: its status code and the
value `response.json()` would produce. -/
structure HttpResponse where
  status : Nat
  body : PyValue
deriving DecidableEq, Repr

/-- The retry loop of `get_api_data` (`pages/03_Repo_analytics.py`).
`resp i` is the response to the `i`-th request issued.  Returns the
Python return value, the list of sleep durations performed (each
`time.sleep(10)` records a `10`), and the number of requests issued.

```python
for _ in range(retries):
    response = requests.get(url, headers=headers)
    if response.status_code == 200:
        return response.json()
    elif response.status_code == 202:
        time.sleep(10)
    elif response.status_code == 403:
        st.error(...); return "Permission Denied"
    else:
        st.error(...); return None
st.error("Request failed or data not ready after retries.")
return None
``` -/
def apiLoop (resp : Nat → HttpResponse) : Nat → Nat → List Nat → Nat →
    PyValue × List Nat × Nat
  | _, 0, sleeps, reqs => (PyValue.none, sleeps, reqs)
  | i, fuel + 1, sleeps, reqs =>
    let response := resp i
    if response.status = 200 then
      (response.body, sleeps, reqs + 1)
    else if response.status = 202 then
      apiLoop resp (i + 1) fuel (sleeps ++ [10]) (reqs + 1)
    else if response.status = 403 then
      (PyValue.str "Permission Denied", sleeps, reqs + 1)
    else
      (PyValue.none, sleeps, reqs + 1)

/-- Model of `get_api_data(url, headers, retries=3)`, with the request
environment abstracted as the sequence of responses it would receive.
The Python default `retries=3` is passed explicitly at call sites. -/
def get_api_data (resp : Nat → HttpResponse) (retries : Nat) :
    PyValue × List Nat × Nat :=
  apiLoop resp 0 retries [] 0

/-! ## Calendar dates (`pd.to_datetime(week, unit="s").dt.date`) -/

/-- A Python `datetime.date`. -/
structure PDate where
  year : Int
  month : Int
  day : Int
deriving DecidableEq, Repr

/-- Python `date` ordering: lexicographic on (year, month, day). -/
def PDate.leb (a b : PDate) : Bool :=
  decide (a.year < b.year ∨ (a.year = b.year ∧
    (a.month < b.month ∨ (a.month = b.month ∧ a.day ≤ b.day))))

/-- Civil date of a day count since the Unix epoch (1970-01-01), the
standard Gregorian `civil_from_days` computation, which is what
`pd.to_datetime(·, unit="s").dt.date` yields. -/
def civilFromDays (z0 : Int) : PDate :=
  let z := z0 + 719468
  let era := (if 0 ≤ z then z else z - 146096) / 146097
  let doe := z - era * 146097
  let yoe := (doe - doe / 1460 + doe / 36524 - doe / 146096) / 365
  let y := yoe + era * 400
  let doy := doe - (365 * yoe + yoe / 4 - yoe / 100)
  let mp := (5 * doy + 2) / 153
  let d := doy - (153 * mp + 2) / 5 + 1
  let m := mp + (if mp < 10 then 3 else -9)
  { year := y + (if m ≤ 2 then 1 else 0), month := m, day := d }

/-- Epoch seconds to a calendar date (UTC), truncating within the day. -/
def epochToDate (s : Int) : PDate :=
  civilFromDays (s / 86400)

/-! ## Code-frequency aggregation (`01_Repository_analytics.py`, tab 1) -/

/-- A raw code-frequency CSV row: `(week_epoch_seconds, additions, deletions)`. -/
structure CodeFreqRow where
  week : Int
  additions : Int
  deletions : Int
deriving DecidableEq, Repr

/-- A code-frequency row after `week` has been converted to a date. -/
structure WeekRow where
  week : PDate
  additions : Int
  deletions : Int
deriving DecidableEq, Repr

/-- The date-range filter of the code-frequency tab:
`data[(data["week"] >= start_week) & (data["week"] <= end_week)]`. -/
def dateRangeFilter (xs : List WeekRow) (startW endW : PDate) : List WeekRow :=
  xs.filter fun r => PDate.leb startW r.week && PDate.leb r.week endW

/-- Model of `series.min()` over the `week` column (`none` on an empty
frame). -/
def seriesMinWeek (xs : List WeekRow) : Option PDate :=
  match xs with
  | [] => Option.none
  | r :: rest =>
    some (rest.foldl (fun a b => if PDate.leb b.week a then b.week else a) r.week)

/-- Model of `series.max()` over the `week` column (`none` on an empty
frame). -/
def seriesMaxWeek (xs : List WeekRow) : Option PDate :=
  match xs with
  | [] => Option.none
  | r :: rest =>
    some (rest.foldl (fun a b => if PDate.leb a b.week then b.week else a) r.week)

/-- A filtered code-frequency row with the derived columns the tab adds:
`positive_deletions = deletions.abs()`,
`cumulative_additions = additions.cumsum()`,
`cumulative_deletions = deletions.cumsum()`.
Note the cumulative sums run over the *signed* `deletions` column, not
over `positive_deletions`. -/
structure CodeFreqOut where
  week : PDate
  additions : Int
  deletions : Int
  positive_deletions : Int
  cumulative_additions : Int
  cumulative_deletions : Int
deriving DecidableEq, Repr

/-- Row-wise computation of the derived columns, carrying the running
totals of the two `cumsum()` columns. -/
def addDerivedColumns (ca cd : Int) : List WeekRow → List CodeFreqOut
  | [] => []
  | r :: rs =>
    { week := r.week
      additions := r.additions
      deletions := r.deletions
      positive_deletions := |r.deletions|
      cumulative_additions := ca + r.additions
      cumulative_deletions := cd + r.deletions } ::
    addDerivedColumns (ca + r.additions) (cd + r.deletions) rs

/-- The code-frequency tab of `main` in `01_Repository_analytics.py`:
convert `week` to a date, filter to the selected `[start_week, end_week]`
window, then add `positive_deletions` and the two cumulative columns
(computed over the filtered window). -/
def codeFreqTab (rows : List CodeFreqRow) (startW endW : PDate) :
    List CodeFreqOut :=
  let converted := rows.map fun r =>
    WeekRow.mk (epochToDate r.week) r.additions r.deletions
  addDerivedColumns 0 0 (dateRangeFilter converted startW endW)

/-- The per-chart data frame built by `display_code_frequency` in
`pages/03_Repo_analytics.py`: `week` converted to a datetime and both
`additions` and `deletions` replaced by their absolute values
(`df['additions'].abs()`, `df['deletions'].abs()`); no cumulative
columns are computed there. -/
def display_code_frequency_df (rows : List CodeFreqRow) : List WeekRow :=
  rows.map fun r => WeekRow.mk (epochToDate r.week) |r.additions| |r.deletions|

/-! ## Callers of `get_api_data` that test its result with `if data:` -/

/-- Body of `display_commit_activity` (`pages/03_Repo_analytics.py`):
`data = get_api_data(url, headers)` followed by `if data:` guarding the
`pd.DataFrame(data)` construction and charting.  The model returns the
value handed to `pd.DataFrame`, or `none` when the guard skips it.
`display_contributor_commits` and `display_code_frequency` guard their
bodies identically. -/
def display_commit_activity (resp : Nat → HttpResponse) : Option PyValue :=
  let data := (get_api_data resp 3).1
  if data.truthy then some data else Option.none

/-- The repo-existence check in `app` (`pages/03_Repo_analytics.py`):
`repo_data = get_api_data(repo_url, headers)` then `if not repo_data:`
shows an error and returns.  The model returns `true` when the check
passes (the fetch result is truthy) and the page continues. -/
def app_repo_check (resp : Nat → HttpResponse) : Bool :=
  ((get_api_data resp 3).1).truthy

/-! ## Commit-activity week-over-week metric -/

/-- A pandas float cell: NaN, signed infinity, or a rational value. -/
inductive PFloat where
  | nan
  | inf
  | negInf
  | val (q : ℚ)
deriving DecidableEq, Repr

/-- IEEE-style division as pandas performs it on float columns:
division by zero gives NaN for `0/0` and a signed infinity otherwise. -/
def pandasDiv (a b : ℚ) : PFloat :=
  if b = 0 then (if a = 0 then .nan else if 0 < a then .inf else .negInf)
  else .val (a / b)

/-- Multiplication by the scalar 100 (`* 100` in the source), which
preserves NaN and infinities. -/
def PFloat.mul100 : PFloat → PFloat
  | .nan => .nan
  | .inf => .inf
  | .negInf => .negInf
  | .val q => .val (100 * q)

/-- The week-over-week metric of the commit-activity tab:
`commit_activity_data["total"].pct_change().iloc[-1] * 100`.
`pct_change` places NaN in the first position and
`(x[i] - x[i-1]) / x[i-1]` afterwards; `.iloc[-1]` raises `IndexError`
on an empty series. -/
def weeklyChangePct (totals : List Int) : Except String PFloat :=
  match totals.reverse with
  | [] => Except.error "IndexError"
  | [_] => Except.ok (PFloat.mul100 PFloat.nan)
  | x :: p :: _ => Except.ok (PFloat.mul100 (pandasDiv ((x : ℚ) - (p : ℚ)) (p : ℚ)))

/-! ## Contributor ranking (`01_Repository_analytics.py`, tab 3) -/

/-- Python string comparison, lexicographic by code point, on the
underlying character lists. -/
def charListLt : List Char → List Char → Bool
  | [], [] => false
  | [], _ :: _ => true
  | _ :: _, [] => false
  | c :: cs, d :: ds => if c < d then true else if d < c then false else charListLt cs ds

/-- Python `<` on strings. -/
def strLt (a b : String) : Bool := charListLt a.data b.data

/-- A contributor CSV row after the column renaming of tab 3:
`author_login`, `additions`, `deletions`, `commits`. -/
structure ContribRow where
  author_login : String
  additions : Int
  deletions : Int
  commits : Int
deriving DecidableEq, Repr

/-- The per-row `total_activity` column:
`additions + deletions + commits`. -/
def total_activity (r : ContribRow) : Int :=
  r.additions + r.deletions + r.commits

/-- Insert a key into an ascending duplicate-free key list, keeping it
ascending and duplicate-free (the sorted-unique key extraction that
`groupby` with default `sort=True` performs). -/
def insertSortedUnique (x : String) : List String → List String
  | [] => [x]
  | y :: ys =>
    if x = y then y :: ys
    else if strLt x y then x :: y :: ys
    else y :: insertSortedUnique x ys

/-- The distinct group keys in ascending order, as produced by
`groupby("author_login")` (default `sort=True`). -/
def sortedUniqueKeys (l : List String) : List String :=
  l.foldr insertSortedUnique []

/-- `contributor_data.groupby("author_login")["total_activity"].sum()`:
one `(login, Σ total_activity)` pair per distinct login, with the index
(logins) ascending. -/
def groupSumActivity (rows : List ContribRow) : List (String × Int) :=
  (sortedUniqueKeys (rows.map (·.author_login))).map fun l =>
    (l, ((rows.filter fun r => r.author_login = l).map total_activity).sum)

/-- Stable insertion into a list ascending by the summed activity
value (ties keep the existing element first, as a stable ascending
argsort does). -/
def insertByVal (x : String × Int) : List (String × Int) → List (String × Int)
  | [] => [x]
  | y :: ys => if x.2 ≤ y.2 then x :: y :: ys else y :: insertByVal x ys

/-- Stable ascending sort by the summed activity value. -/
def stableSortByVal : List (String × Int) → List (String × Int)
  | [] => []
  | x :: xs => insertByVal x (stableSortByVal xs)

/-- Model of `series.sort_values(ascending=False)`: for
`ascending=False`, `pandas.core.sorting.nargsort` first reverses the
values and the index, then computes a stable ascending argsort, then
reverses the resulting indexer — the two reversals cancel on distinct
values, and for equal values the stable sort of the reversed input
makes the net effect a stable descending sort that preserves the
original tie order (pandas regression test for GH 28697).  (numpy's
default sort is insertion sort — stable — below 16 elements; this
embedding models the stable case.) -/
def sort_values_desc (l : List (String × Int)) : List (String × Int) :=
  (stableSortByVal l.reverse).reverse

/-- `activity_by_user` of tab 3: group by login, sum `total_activity`,
sort descending by the summed value. -/
def activity_by_user (rows : List ContribRow) : List (String × Int) :=
  sort_values_desc (groupSumActivity rows)

/-- `user_list = activity_by_user.index.tolist()`: the ranked logins
handed to the user-selection control. -/
def user_list (rows : List ContribRow) : List String :=
  (activity_by_user rows).map (·.1)

/-! ## The CSV loader `load_data` -/

/-- A pandas data frame, kept abstract as its rows of cells. -/
structure DataFrame where
  rows : List (List String)
deriving DecidableEq, Repr

/-- The pandas `DataFrame.empty` property: no rows. -/
def DataFrame.isEmptyDf (df : DataFrame) : Bool := df.rows.isEmpty

/-- The value `pd.DataFrame()` — the empty frame the handlers return. -/
def pdEmptyDataFrame : DataFrame := ⟨[]⟩

/-- The outcome of the `pd.read_csv(filepath)` call inside `load_data`:
a parsed frame, or one of the exceptions the `except` clauses name. -/
inductive ReadCsvResult where
  | ok (df : DataFrame)
  | fileNotFoundError
  | emptyDataError
  | otherError (msg : String)
deriving DecidableEq, Repr

/-- The function `load_data` of `01_Repository_analytics.py`.  The `try`
block returns the parsed frame (showing an error banner, a side effect,
when it is empty); each `except` clause (FileNotFoundError,
pd.errors.EmptyDataError, and the catch-all `except Exception`) shows a
banner and falls through to `return pd.DataFrame()`.  An `Except.error`
result would model an exception escaping to the caller; no branch
produces one. -/
def load_data : ReadCsvResult → Except String DataFrame
  | .ok df => Except.ok df
  | .fileNotFoundError => Except.ok pdEmptyDataFrame
  | .emptyDataError => Except.ok pdEmptyDataFrame
  | .otherError _ => Except.ok pdEmptyDataFrame

/-! ## Helper lemmas about the retry loop -/

/-- Skipping a prefix of `j` pending (202) responses: the loop sleeps 10
seconds after each and moves on to the next attempt. -/
theorem apiLoop_skip202 (resp : Nat → HttpResponse) :
    ∀ (j fuel i : Nat) (sleeps : List Nat) (reqs : Nat), j < fuel →
    (∀ k, k < j → (resp (i + k)).status = 202) →
    apiLoop resp i fuel sleeps reqs =
      apiLoop resp (i + j) (fuel - j) (sleeps ++ List.replicate j 10) (reqs + j) := by
  intro j
  induction j with
  | zero =>
    intro fuel i sleeps reqs _ _
    simp
  | succ n ih =>
    intro fuel i sleeps reqs hj h202
    cases fuel with
    | zero => omega
    | succ f =>
      have h0 : (resp i).status = 202 := h202 0 (Nat.succ_pos n)
      have step : apiLoop resp i (f + 1) sleeps reqs =
          apiLoop resp (i + 1) f (sleeps ++ [10]) (reqs + 1) := by
        simp [apiLoop, h0]
      rw [step, ih f (i + 1) (sleeps ++ [10]) (reqs + 1) (by omega)
        (fun k hk => by
          have := h202 (k + 1) (by omega)
          simpa [Nat.add_assoc, Nat.add_comm 1 k] using this)]
      have e1 : i + 1 + n = i + (n + 1) := by omega
      have e2 : f - n = f + 1 - (n + 1) := by omega
      have e3 : sleeps ++ [10] ++ List.replicate n 10 =
          sleeps ++ List.replicate (n + 1) 10 := by
        simp [List.replicate_succ]
      have e4 : reqs + 1 + n = reqs + (n + 1) := by omega
      rw [e1, e2, e3, e4]

/-- A 200 response after `j` pending responses ends the loop with the
payload, `j` sleeps, and `j + 1` requests. -/
theorem get_api_data_200 (resp : Nat → HttpResponse) (retries j : Nat)
    (hj : j < retries) (h202 : ∀ k, k < j → (resp k).status = 202)
    (h200 : (resp j).status = 200) :
    get_api_data resp retries = ((resp j).body, List.replicate j 10, j + 1) := by
  unfold get_api_data
  rw [apiLoop_skip202 resp j retries 0 [] 0 hj (fun k hk => by simpa using h202 k hk)]
  obtain ⟨m, hm⟩ : ∃ m, retries - j = m + 1 := ⟨retries - j - 1, by omega⟩
  rw [hm]
  simp [apiLoop, h200]

/-- A 403 response after `j` pending responses ends the loop with the
`"Permission Denied"` string, `j` sleeps, and `j + 1` requests. -/
theorem get_api_data_403 (resp : Nat → HttpResponse) (retries j : Nat)
    (hj : j < retries) (h202 : ∀ k, k < j → (resp k).status = 202)
    (h403 : (resp j).status = 403) :
    get_api_data resp retries =
      (PyValue.str "Permission Denied", List.replicate j 10, j + 1) := by
  unfold get_api_data
  rw [apiLoop_skip202 resp j retries 0 [] 0 hj (fun k hk => by simpa using h202 k hk)]
  obtain ⟨m, hm⟩ : ∃ m, retries - j = m + 1 := ⟨retries - j - 1, by omega⟩
  rw [hm]
  simp [apiLoop, h403]

/-- When every attempt is pending, the loop exhausts the attempts,
sleeping after each one (the last included), and returns `None`. -/
theorem get_api_data_allPending (resp : Nat → HttpResponse) (retries : Nat)
    (h202 : ∀ k, k < retries → (resp k).status = 202) :
    get_api_data resp retries =
      (PyValue.none, List.replicate retries 10, retries) := by
  cases retries with
  | zero => simp [get_api_data, apiLoop]
  | succ n =>
    unfold get_api_data
    rw [apiLoop_skip202 resp n (n + 1) 0 [] 0 (by omega)
      (fun k hk => by simpa using h202 k (by omega))]
    have h0 : (resp n).status = 202 := h202 n (by omega)
    have : n + 1 - n = 1 := by omega
    rw [this]
    simp [apiLoop, h0, List.replicate_succ']

/-! ## Helper lemmas about the date order and the filter -/

theorem PDate.leb_refl (a : PDate) : PDate.leb a a = true := by
  simp [PDate.leb]

theorem PDate.leb_trans {a b c : PDate} (hab : PDate.leb a b = true)
    (hbc : PDate.leb b c = true) : PDate.leb a c = true := by
  simp only [PDate.leb, decide_eq_true_eq] at hab hbc ⊢
  omega

theorem PDate.leb_total (a b : PDate) :
    PDate.leb a b = true ∨ PDate.leb b a = true := by
  simp only [PDate.leb, decide_eq_true_eq]
  omega

/-- The running minimum of the `week` column bounds the seed and every
element from below. -/
theorem foldlMinWeek_le (l : List WeekRow) : ∀ (a : PDate),
    PDate.leb (l.foldl (fun a b => if PDate.leb b.week a then b.week else a) a) a = true ∧
    ∀ r ∈ l, PDate.leb
      (l.foldl (fun a b => if PDate.leb b.week a then b.week else a) a) r.week = true := by
  induction l with
  | nil => intro a; simpa using PDate.leb_refl a
  | cons b l ih =>
    intro a
    simp only [List.foldl_cons]
    refine ⟨?_, ?_⟩
    · by_cases hb : PDate.leb b.week a = true
      · rw [if_pos hb]
        exact PDate.leb_trans (ih b.week).1 hb
      · rw [if_neg hb]
        exact (ih a).1
    · intro r hr
      rcases List.mem_cons.mp hr with hrb | hrl
      · subst hrb
        by_cases hb : PDate.leb r.week a = true
        · rw [if_pos hb]
          exact (ih r.week).1
        · rw [if_neg hb]
          rcases PDate.leb_total r.week a with h | h
          · exact absurd h hb
          · exact PDate.leb_trans (ih a).1 h
      · by_cases hb : PDate.leb b.week a = true
        · rw [if_pos hb]
          exact (ih b.week).2 r hrl
        · rw [if_neg hb]
          exact (ih a).2 r hrl

/-- The running maximum of the `week` column bounds the seed and every
element from above. -/
theorem le_foldlMaxWeek (l : List WeekRow) : ∀ (a : PDate),
    PDate.leb a (l.foldl (fun a b => if PDate.leb a b.week then b.week else a) a) = true ∧
    ∀ r ∈ l, PDate.leb r.week
      (l.foldl (fun a b => if PDate.leb a b.week then b.week else a) a) = true := by
  induction l with
  | nil => intro a; simpa using PDate.leb_refl a
  | cons b l ih =>
    intro a
    simp only [List.foldl_cons]
    refine ⟨?_, ?_⟩
    · by_cases hb : PDate.leb a b.week = true
      · rw [if_pos hb]
        exact PDate.leb_trans hb (ih b.week).1
      · rw [if_neg hb]
        exact (ih a).1
    · intro r hr
      rcases List.mem_cons.mp hr with hrb | hrl
      · subst hrb
        by_cases hb : PDate.leb a r.week = true
        · rw [if_pos hb]
          exact (ih r.week).1
        · rw [if_neg hb]
          rcases PDate.leb_total a r.week with h | h
          · exact absurd h hb
          · exact PDate.leb_trans h (ih a).1
      · by_cases hb : PDate.leb a b.week = true
        · rw [if_pos hb]
          exact (ih b.week).2 r hrl
        · rw [if_neg hb]
          exact (ih a).2 r hrl

/-- `seriesMinWeek` is a lower bound of every `week` in the series. -/
theorem seriesMinWeek_le {xs : List WeekRow} {mn : PDate}
    (h : seriesMinWeek xs = some mn) : ∀ r ∈ xs, PDate.leb mn r.week = true := by
  cases xs with
  | nil => simp [seriesMinWeek] at h
  | cons r0 rest =>
    simp only [seriesMinWeek, Option.some.injEq] at h
    intro r hr
    rcases List.mem_cons.mp hr with hr0 | hrl
    · subst hr0
      rw [← h]
      exact (foldlMinWeek_le rest r.week).1
    · rw [← h]
      exact (foldlMinWeek_le rest r0.week).2 r hrl

/-- `seriesMaxWeek` is an upper bound of every `week` in the series. -/
theorem le_seriesMaxWeek {xs : List WeekRow} {mx : PDate}
    (h : seriesMaxWeek xs = some mx) : ∀ r ∈ xs, PDate.leb r.week mx = true := by
  cases xs with
  | nil => simp [seriesMaxWeek] at h
  | cons r0 rest =>
    simp only [seriesMaxWeek, Option.some.injEq] at h
    intro r hr
    rcases List.mem_cons.mp hr with hr0 | hrl
    · subst hr0
      rw [← h]
      exact (le_foldlMaxWeek rest r.week).1
    · rw [← h]
      exact (le_foldlMaxWeek rest r0.week).2 r hrl

/-! ## Helper lemmas about the cumulative columns -/

/-- With non-negative `additions`, the running `cumulative_additions`
column is non-decreasing, whatever the starting totals. -/
theorem addDerived_cumAdd_chain : ∀ (l : List WeekRow) (ca cd : Int),
    (∀ r ∈ l, 0 ≤ r.additions) →
    List.Chain' (· ≤ ·) ((addDerivedColumns ca cd l).map (·.cumulative_additions)) := by
  intro l
  induction l with
  | nil => intro ca cd _; simp [addDerivedColumns]
  | cons r rs ih =>
    intro ca cd h
    simp only [addDerivedColumns, List.map_cons]
    rw [List.chain'_cons']
    refine ⟨?_, ih (ca + r.additions) (cd + r.deletions)
      (fun x hx => h x (List.mem_cons_of_mem r hx))⟩
    intro y hy
    cases rs with
    | nil => simp [addDerivedColumns] at hy
    | cons r' rs' =>
      simp only [addDerivedColumns, List.map_cons, List.head?_cons,
        Option.mem_def, Option.some.injEq] at hy
      have h' : 0 ≤ r'.additions := h r' (by simp)
      omega

/-- With non-positive `deletions`, the running `cumulative_deletions`
column is non-increasing, whatever the starting totals. -/
theorem addDerived_cumDel_chain : ∀ (l : List WeekRow) (ca cd : Int),
    (∀ r ∈ l, r.deletions ≤ 0) →
    List.Chain' (fun a b => b ≤ a)
      ((addDerivedColumns ca cd l).map (·.cumulative_deletions)) := by
  intro l
  induction l with
  | nil => intro ca cd _; simp [addDerivedColumns]
  | cons r rs ih =>
    intro ca cd h
    simp only [addDerivedColumns, List.map_cons]
    rw [List.chain'_cons']
    refine ⟨?_, ih (ca + r.additions) (cd + r.deletions)
      (fun x hx => h x (List.mem_cons_of_mem r hx))⟩
    intro y hy
    cases rs with
    | nil => simp [addDerivedColumns] at hy
    | cons r' rs' =>
      simp only [addDerivedColumns, List.map_cons, List.head?_cons,
        Option.mem_def, Option.some.injEq] at hy
      have h' : r'.deletions ≤ 0 := h r' (by simp)
      omega

/-! ## Helper lemmas about the string order -/

theorem charListLt_irrefl : ∀ l, charListLt l l = false := by
  intro l
  induction l with
  | nil => rfl
  | cons c cs ih => simp [charListLt, lt_irrefl, ih]

theorem charListLt_trans : ∀ (a b c : List Char), charListLt a b = true →
    charListLt b c = true → charListLt a c = true := by
  intro a
  induction a with
  | nil =>
    intro b c hab hbc
    cases b with
    | nil => exact absurd hab (by simp [charListLt])
    | cons bh bt =>
      cases c with
      | nil => exact absurd hbc (by simp [charListLt])
      | cons ch ct => rfl
  | cons ah as ih =>
    intro b c hab hbc
    cases b with
    | nil => exact absurd hab (by simp [charListLt])
    | cons bh bt =>
      cases c with
      | nil => exact absurd hbc (by simp [charListLt])
      | cons ch ct =>
        simp only [charListLt] at hab hbc ⊢
        by_cases h1 : ah < bh
        · by_cases h2 : bh < ch
          · simp [lt_trans h1 h2]
          · rw [if_neg h2] at hbc
            by_cases h3 : ch < bh
            · rw [if_pos h3] at hbc; exact absurd hbc (by simp)
            · have hbc2 : bh = ch := le_antisymm (not_lt.mp h3) (not_lt.mp h2)
              subst hbc2
              simp [h1]
        · rw [if_neg h1] at hab
          by_cases h4 : bh < ah
          · rw [if_pos h4] at hab; exact absurd hab (by simp)
          · rw [if_neg h4] at hab
            have hab2 : ah = bh := le_antisymm (not_lt.mp h4) (not_lt.mp h1)
            subst hab2
            by_cases h2 : ah < ch
            · simp [h2]
            · rw [if_neg h2] at hbc
              by_cases h3 : ch < ah
              · rw [if_pos h3] at hbc; exact absurd hbc (by simp)
              · rw [if_neg h3] at hbc
                rw [if_neg h2, if_neg h3]
                exact ih bt ct hab hbc

theorem charListLt_conn : ∀ (a b : List Char), charListLt a b = false →
    charListLt b a = false → a = b := by
  intro a
  induction a with
  | nil =>
    intro b hab _
    cases b with
    | nil => rfl
    | cons bh bt => exact absurd hab (by simp [charListLt])
  | cons ah as ih =>
    intro b hab hba
    cases b with
    | nil => exact absurd hba (by simp [charListLt])
    | cons bh bt =>
      simp only [charListLt] at hab hba
      by_cases h1 : ah < bh
      · rw [if_pos h1] at hab; exact absurd hab (by simp)
      · by_cases h2 : bh < ah
        · rw [if_pos h2] at hba; exact absurd hba (by simp)
        · rw [if_neg h1, if_neg h2] at hab
          rw [if_neg h2, if_neg h1] at hba
          have he : ah = bh := le_antisymm (not_lt.mp h2) (not_lt.mp h1)
          rw [he, ih bt hab hba]

theorem strVal_inj : ∀ {a b : String}, a.data = b.data → a = b := by
  intro a b h
  cases a; cases b; exact congrArg String.mk h

theorem strLt_irrefl (a : String) : strLt a a = false :=
  charListLt_irrefl a.data

theorem strLt_trans {a b c : String} (hab : strLt a b = true)
    (hbc : strLt b c = true) : strLt a c = true :=
  charListLt_trans a.data b.data c.data hab hbc

theorem strLt_conn {a b : String} (hab : strLt a b = false)
    (hba : strLt b a = false) : a = b :=
  strVal_inj (charListLt_conn a.data b.data hab hba)

/-! ## Helper lemmas about the contributor ranking -/

theorem mem_insertSortedUnique (x : String) : ∀ (l : List String) (z : String),
    z ∈ insertSortedUnique x l ↔ z = x ∨ z ∈ l := by
  intro l
  induction l with
  | nil => intro z; simp [insertSortedUnique]
  | cons y ys ih =>
    intro z
    simp only [insertSortedUnique]
    by_cases hxy : x = y
    · subst hxy
      rw [if_pos rfl]
      constructor
      · intro h; exact Or.inr h
      · intro h
        rcases h with h | h
        · subst h; exact List.mem_cons_self _ _
        · exact h
    · rw [if_neg hxy]
      by_cases hlt : strLt x y = true
      · rw [if_pos hlt]
        simp [or_comm, or_assoc, or_left_comm]
      · rw [if_neg hlt]
        simp only [List.mem_cons, ih z]
        tauto

theorem pairwise_insertSortedUnique (x : String) :
    ∀ (l : List String), l.Pairwise (fun a b => strLt a b = true) →
    (insertSortedUnique x l).Pairwise (fun a b => strLt a b = true) := by
  intro l
  induction l with
  | nil => intro _; simp [insertSortedUnique]
  | cons y ys ih =>
    intro h
    rcases List.pairwise_cons.mp h with ⟨hy, hys⟩
    simp only [insertSortedUnique]
    by_cases hxy : x = y
    · rw [if_pos hxy]; exact h
    · rw [if_neg hxy]
      by_cases hlt : strLt x y = true
      · rw [if_pos hlt]
        refine List.pairwise_cons.mpr ⟨?_, h⟩
        intro z hz
        rcases List.mem_cons.mp hz with hz | hz
        · subst hz; exact hlt
        · exact strLt_trans hlt (hy z hz)
      · rw [if_neg hlt]
        have hxyf : strLt x y = false := by
          cases hxe : strLt x y
          · rfl
          · exact absurd hxe hlt
        have hyx : strLt y x = true := by
          cases hye : strLt y x
          · exact absurd (strLt_conn hxyf hye) hxy
          · rfl
        refine List.pairwise_cons.mpr ⟨?_, ih hys⟩
        intro z hz
        rcases (mem_insertSortedUnique x ys z).mp hz with hz | hz
        · subst hz; exact hyx
        · exact hy z hz

theorem sortedUniqueKeys_pairwise (l : List String) :
    (sortedUniqueKeys l).Pairwise (fun a b => strLt a b = true) := by
  induction l with
  | nil => simp [sortedUniqueKeys]
  | cons x xs ih => exact pairwise_insertSortedUnique x (sortedUniqueKeys xs) ih

theorem mem_insertByVal (x : String × Int) : ∀ (l : List (String × Int))
    (z : String × Int), z ∈ insertByVal x l ↔ z = x ∨ z ∈ l := by
  intro l
  induction l with
  | nil => intro z; simp [insertByVal]
  | cons y ys ih =>
    intro z
    simp only [insertByVal]
    by_cases hv : x.2 ≤ y.2
    · rw [if_pos hv]
      simp [or_comm, or_assoc, or_left_comm]
    · rw [if_neg hv]
      simp only [List.mem_cons, ih z]
      tauto

theorem mem_stableSortByVal : ∀ (l : List (String × Int)) (z : String × Int),
    z ∈ stableSortByVal l ↔ z ∈ l := by
  intro l
  induction l with
  | nil => intro z; simp [stableSortByVal]
  | cons y ys ih =>
    intro z
    simp only [stableSortByVal, mem_insertByVal, ih, List.mem_cons]

/-- Inserting an element whose key is above every key in an
ascending-by-value, tie-descending-by-key list keeps the list
ascending-by-value with ties descending by key (the element is placed
in front of the equal-valued, smaller-keyed elements, as stability
demands for the head of the reversed input). -/
theorem pairwise_insertByVal (x : String × Int) :
    ∀ (l : List (String × Int)),
    l.Pairwise (fun p q => p.2 < q.2 ∨ (p.2 = q.2 ∧ strLt q.1 p.1 = true)) →
    (∀ y ∈ l, strLt y.1 x.1 = true) →
    (insertByVal x l).Pairwise
      (fun p q => p.2 < q.2 ∨ (p.2 = q.2 ∧ strLt q.1 p.1 = true)) := by
  intro l
  induction l with
  | nil => intro _ _; simp [insertByVal]
  | cons y ys ih =>
    intro h hkey
    rcases List.pairwise_cons.mp h with ⟨hy, hys⟩
    simp only [insertByVal]
    by_cases hv : x.2 ≤ y.2
    · rw [if_pos hv]
      refine List.pairwise_cons.mpr ⟨?_, h⟩
      intro z hz
      have hzval : y.2 ≤ z.2 := by
        rcases List.mem_cons.mp hz with hz | hz
        · subst hz; exact le_refl _
        · rcases hy z hz with h' | h'
          · exact le_of_lt h'
          · exact le_of_eq h'.1
      rcases lt_or_eq_of_le (le_trans hv hzval) with h' | h'
      · exact Or.inl h'
      · exact Or.inr ⟨h', hkey z hz⟩
    · rw [if_neg hv]
      refine List.pairwise_cons.mpr ⟨?_, ih hys (fun z hz => hkey z (List.mem_cons_of_mem y hz))⟩
      intro z hz
      rcases (mem_insertByVal x ys z).mp hz with hz | hz
      · subst hz; exact Or.inl (lt_of_not_ge hv)
      · exact hy z hz

/-- The stable ascending sort of a list whose keys are strictly
descending (the reversed grouped index) is ascending by value with
ties descending by key. -/
theorem pairwise_stableSortByVal :
    ∀ (l : List (String × Int)),
    l.Pairwise (fun p q => strLt q.1 p.1 = true) →
    (stableSortByVal l).Pairwise
      (fun p q => p.2 < q.2 ∨ (p.2 = q.2 ∧ strLt q.1 p.1 = true)) := by
  intro l
  induction l with
  | nil => intro _; simp [stableSortByVal]
  | cons x xs ih =>
    intro h
    rcases List.pairwise_cons.mp h with ⟨hx, hxs⟩
    exact pairwise_insertByVal x (stableSortByVal xs) (ih hxs)
      (fun z hz => hx z ((mem_stableSortByVal xs z).mp hz))

/-- The grouped sums inherit the strictly ascending login order of the
group keys. -/
theorem groupSumActivity_keys (rows : List ContribRow) :
    (groupSumActivity rows).Pairwise (fun p q => strLt p.1 q.1 = true) := by
  unfold groupSumActivity
  rw [List.pairwise_map]
  exact sortedUniqueKeys_pairwise _

/-! ## Claims about the polling fetcher -/

/-- C3: with `retries = 3`, responses 202, 202, 200 yield the 200 payload
with exactly two 10-second backoff waits; more generally a 200 on attempt
`j` (after `j` pending responses) returns its payload immediately after
`j` waits and `j + 1` requests, and exhausting every attempt on 202
yields the not-ready failure value `None`. -/
theorem get_api_data_polling (resp : Nat → HttpResponse) (retries j : Nat) :
    ((resp 0).status = 202 → (resp 1).status = 202 → (resp 2).status = 200 →
      get_api_data resp 3 = ((resp 2).body, [10, 10], 3)) ∧
    (j < retries → (∀ k, k < j → (resp k).status = 202) → (resp j).status = 200 →
      get_api_data resp retries = ((resp j).body, List.replicate j 10, j + 1)) ∧
    ((∀ k, k < retries → (resp k).status = 202) →
      get_api_data resp retries =
        (PyValue.none, List.replicate retries 10, retries)) := by
  refine ⟨?_, ?_, ?_⟩
  · intro h0 h1 h2
    have h' : ∀ k, k < 2 → (resp k).status = 202 := by
      intro k hk
      interval_cases k <;> assumption
    simpa using get_api_data_200 resp 3 2 (by omega) h' h2
  · intro hj h202 h200
    exact get_api_data_200 resp retries j hj h202 h200
  · intro h202
    exact get_api_data_allPending resp retries h202

/-- C3 witness: a concrete 202, 202, 200 interaction. -/
theorem get_api_data_polling_witness :
    get_api_data (fun i => if i < 2 then ⟨202, PyValue.none⟩
      else ⟨200, PyValue.json "payload" true⟩) 3 =
      (PyValue.json "payload" true, [10, 10], 3) :=
  (get_api_data_polling (fun i => if i < 2 then ⟨202, PyValue.none⟩
      else ⟨200, PyValue.json "payload" true⟩) 3 2).1 rfl rfl rfl

/-- C10: when every one of the `retries` attempts returns 202 the loop
sleeps 10 seconds after each attempt — the final one included — issues
exactly `retries` requests (none after the last sleep), and returns
`None`. -/
theorem get_api_data_all202 (resp : Nat → HttpResponse) (retries : Nat) :
    (∀ k, k < retries → (resp k).status = 202) →
    get_api_data resp retries =
      (PyValue.none, List.replicate retries 10, retries) :=
  fun h => get_api_data_allPending resp retries h

/-- C10 witness: three 202 responses with `retries = 3`. -/
theorem get_api_data_all202_witness :
    get_api_data (fun _ => ⟨202, PyValue.none⟩) 3 =
      (PyValue.none, [10, 10, 10], 3) :=
  get_api_data_all202 (fun _ => ⟨202, PyValue.none⟩) 3 (fun _ _ => rfl)

/-- C4: a 403 on the first attempt returns the permission-denied result
immediately: zero backoff waits, exactly one request, and the result is
distinct from the `None` produced by both the not-ready and the
generic-upstream-error paths. -/
theorem get_api_data_403_fail_fast (resp : Nat → HttpResponse) (retries : Nat) :
    0 < retries → (resp 0).status = 403 →
    get_api_data resp retries = (PyValue.str "Permission Denied", [], 1) ∧
    PyValue.str "Permission Denied" ≠ PyValue.none := by
  intro hr h403
  refine ⟨?_, by simp⟩
  simpa using get_api_data_403 resp retries 0 hr
    (fun k hk => absurd hk (Nat.not_lt_zero k)) h403

/-- C4 witness: a concrete first-attempt 403 with `retries = 3`. -/
theorem get_api_data_403_fail_fast_witness :
    get_api_data (fun _ => ⟨403, PyValue.none⟩) 3 =
      (PyValue.str "Permission Denied", [], 1) :=
  (get_api_data_403_fail_fast (fun _ => ⟨403, PyValue.none⟩) 3 (by omega) rfl).1

/-- C8: when attempt `j < 3` returns 403 (after pending 202s), the
fetcher's result is the string `"Permission Denied"`, which is truthy,
so the `if data:` guards in the display helpers and the repo-existence
check in `app` treat the permission failure as a successful payload and
hand the string onward to `pd.DataFrame` construction. -/
theorem get_api_data_403_truthy (resp : Nat → HttpResponse) (j : Nat) :
    j < 3 → (∀ k, k < j → (resp k).status = 202) → (resp j).status = 403 →
    (get_api_data resp 3).1 = PyValue.str "Permission Denied" ∧
    (PyValue.str "Permission Denied").truthy = true ∧
    display_commit_activity resp = some (PyValue.str "Permission Denied") ∧
    app_repo_check resp = true := by
  intro hj h202 h403
  have h := get_api_data_403 resp 3 j hj h202 h403
  refine ⟨by rw [h], rfl, ?_, ?_⟩
  · unfold display_commit_activity
    rw [h]
    rfl
  · unfold app_repo_check
    rw [h]
    rfl

/-- C8 witness: a concrete first-attempt 403. -/
theorem get_api_data_403_truthy_witness :
    display_commit_activity (fun _ => ⟨403, PyValue.none⟩) =
      some (PyValue.str "Permission Denied") ∧
    app_repo_check (fun _ => ⟨403, PyValue.none⟩) = true :=
  ⟨(get_api_data_403_truthy (fun _ => ⟨403, PyValue.none⟩) 0 (by omega)
      (fun k hk => absurd hk (Nat.not_lt_zero k)) rfl).2.2.1,
   (get_api_data_403_truthy (fun _ => ⟨403, PyValue.none⟩) 0 (by omega)
      (fun k hk => absurd hk (Nat.not_lt_zero k)) rfl).2.2.2⟩

/-! ## Claims about the code-frequency aggregation -/

/-- C1 counterexample: on a well-formed code-frequency input (additions
non-negative, deletions non-positive as delivered upstream) the
`cumulative_deletions` sequence the code produces is `[-4, -6]` —
strictly decreasing — because the cumulative sum runs over the signed
`deletions` column, not over its absolute values. -/
theorem codeFreq_cumulative_cx :
    ¬ List.Chain' (fun a b => a ≤ b)
      ((codeFreqTab [⟨1700000000, 10, -4⟩, ⟨1700604800, 5, -2⟩]
        ⟨2023, 11, 14⟩ ⟨2023, 11, 21⟩).map (·.cumulative_deletions)) := by
  intro h
  have he : (codeFreqTab [⟨1700000000, 10, -4⟩, ⟨1700604800, 5, -2⟩]
      ⟨2023, 11, 14⟩ ⟨2023, 11, 21⟩).map (·.cumulative_deletions) =
      [(-4 : Int), -6] := by decide
  rw [he] at h
  rcases List.chain'_cons.mp h with ⟨hle, -⟩
  omega

/-- C1 (amended): over any code-frequency input whose `additions` are
non-negative and whose `deletions` are non-positive (the shape the
upstream API delivers), and any selected window, `cumulative_additions`
is non-decreasing while `cumulative_deletions` is non-increasing: the
cumulative sums run over the signed columns, so only the additions side
of the claim holds. -/
theorem codeFreqTab_cumulative_monotone (rows : List CodeFreqRow) (s e : PDate) :
    (∀ r ∈ rows, 0 ≤ r.additions) → (∀ r ∈ rows, r.deletions ≤ 0) →
    List.Chain' (fun a b => a ≤ b)
      ((codeFreqTab rows s e).map (·.cumulative_additions)) ∧
    List.Chain' (fun a b => b ≤ a)
      ((codeFreqTab rows s e).map (·.cumulative_deletions)) := by
  intro hadd hdel
  simp only [codeFreqTab]
  constructor
  · apply addDerived_cumAdd_chain
    intro r hr
    have hr' : r ∈ rows.map fun r =>
        WeekRow.mk (epochToDate r.week) r.additions r.deletions :=
      List.mem_of_mem_filter hr
    rcases List.mem_map.mp hr' with ⟨r0, hr0, hre⟩
    rw [← hre]
    exact hadd r0 hr0
  · apply addDerived_cumDel_chain
    intro r hr
    have hr' : r ∈ rows.map fun r =>
        WeekRow.mk (epochToDate r.week) r.additions r.deletions :=
      List.mem_of_mem_filter hr
    rcases List.mem_map.mp hr' with ⟨r0, hr0, hre⟩
    rw [← hre]
    exact hdel r0 hr0

/-- C1 witness: the two monotonicity conclusions at the concrete
scenario input. -/
theorem codeFreqTab_cumulative_monotone_witness :
    List.Chain' (fun a b => a ≤ b)
      ((codeFreqTab [⟨1700000000, 10, -4⟩, ⟨1700604800, 5, -2⟩]
        ⟨2023, 11, 14⟩ ⟨2023, 11, 21⟩).map (·.cumulative_additions)) ∧
    List.Chain' (fun a b => b ≤ a)
      ((codeFreqTab [⟨1700000000, 10, -4⟩, ⟨1700604800, 5, -2⟩]
        ⟨2023, 11, 14⟩ ⟨2023, 11, 21⟩).map (·.cumulative_deletions)) :=
  codeFreqTab_cumulative_monotone _ ⟨2023, 11, 14⟩ ⟨2023, 11, 21⟩
    (by decide) (by decide)

/-- C2 counterexample: on the spec's scenario payload the rows the code
produces keep `deletions` signed (`-4`, `-2`) and accumulate the signed
values (`-4`, `-6`), not the magnitudes `4`, `6` the claim states. -/
theorem codeFreq_scenario_cx :
    (codeFreqTab [⟨1700000000, 10, -4⟩, ⟨1700604800, 5, -2⟩]
        ⟨2023, 11, 14⟩ ⟨2023, 11, 21⟩).map
      (fun r => (r.deletions, r.cumulative_additions, r.cumulative_deletions)) =
      [(-4, 10, -4), (-2, 15, -6)] ∧
    ((-4 : Int), (10 : Int), (-4 : Int)) ≠ ((4 : Int), (10 : Int), (4 : Int)) := by
  constructor
  · decide
  · decide

/-- C2 (amended): on the scenario payload the weeks convert to
2023-11-14 and 2023-11-21 and `cumulative_additions` is `10, 15` as
claimed, but the output keeps `deletions` signed (`-4, -2`) with the
magnitudes only in the separate (otherwise unused) `positive_deletions`
column, and `cumulative_deletions` is the running sum of the signed
deletions (`-4, -6`); `display_code_frequency` in
`pages/03_Repo_analytics.py` does take `abs` of both columns for its
chart but computes no cumulative sums. -/
theorem codeFreq_scenario_actual :
    codeFreqTab [⟨1700000000, 10, -4⟩, ⟨1700604800, 5, -2⟩]
        ⟨2023, 11, 14⟩ ⟨2023, 11, 21⟩ =
      [⟨⟨2023, 11, 14⟩, 10, -4, 4, 10, -4⟩,
       ⟨⟨2023, 11, 21⟩, 5, -2, 2, 15, -6⟩] ∧
    display_code_frequency_df [⟨1700000000, 10, -4⟩, ⟨1700604800, 5, -2⟩] =
      [⟨⟨2023, 11, 14⟩, 10, 4⟩, ⟨⟨2023, 11, 21⟩, 5, 2⟩] := by
  constructor
  · decide
  · decide

/-! ## Claim about the date-range filter -/

/-- C6: the date-range filter returns the whole series for the full span
`[min_week, max_week]`, returns the empty series (rather than failing)
when `start > end`, and always preserves the original order — its result
is a sublist of the input. -/
theorem dateRangeFilter_props (xs : List WeekRow) (s e : PDate) :
    (∀ mn mx, seriesMinWeek xs = some mn → seriesMaxWeek xs = some mx →
      dateRangeFilter xs mn mx = xs) ∧
    (PDate.leb s e = false → dateRangeFilter xs s e = []) ∧
    (dateRangeFilter xs s e).Sublist xs := by
  refine ⟨?_, ?_, List.filter_sublist xs⟩
  · intro mn mx hmn hmx
    unfold dateRangeFilter
    rw [List.filter_eq_self]
    intro r hr
    rw [Bool.and_eq_true]
    exact ⟨seriesMinWeek_le hmn r hr, le_seriesMaxWeek hmx r hr⟩
  · intro hse
    unfold dateRangeFilter
    rw [List.filter_eq_nil_iff]
    intro r hr hcontra
    rw [Bool.and_eq_true] at hcontra
    have htr := PDate.leb_trans hcontra.1 hcontra.2
    rw [hse] at htr
    exact Bool.false_ne_true htr

/-- C6 witness: full-span identity, inverted-window emptiness, and order
preservation on a concrete two-row series. -/
theorem dateRangeFilter_props_witness :
    dateRangeFilter [⟨⟨2023, 11, 14⟩, 10, -4⟩, ⟨⟨2023, 11, 21⟩, 5, -2⟩]
        ⟨2023, 11, 14⟩ ⟨2023, 11, 21⟩ =
      [⟨⟨2023, 11, 14⟩, 10, -4⟩, ⟨⟨2023, 11, 21⟩, 5, -2⟩] ∧
    dateRangeFilter [⟨⟨2023, 11, 14⟩, 10, -4⟩, ⟨⟨2023, 11, 21⟩, 5, -2⟩]
        ⟨2023, 11, 21⟩ ⟨2023, 11, 14⟩ = [] ∧
    (dateRangeFilter [⟨⟨2023, 11, 14⟩, 10, -4⟩, ⟨⟨2023, 11, 21⟩, 5, -2⟩]
        ⟨2023, 11, 14⟩ ⟨2023, 11, 21⟩).Sublist
      [⟨⟨2023, 11, 14⟩, 10, -4⟩, ⟨⟨2023, 11, 21⟩, 5, -2⟩] :=
  ⟨(dateRangeFilter_props [⟨⟨2023, 11, 14⟩, 10, -4⟩, ⟨⟨2023, 11, 21⟩, 5, -2⟩]
      ⟨2023, 11, 14⟩ ⟨2023, 11, 21⟩).1 ⟨2023, 11, 14⟩ ⟨2023, 11, 21⟩ rfl rfl,
   (dateRangeFilter_props [⟨⟨2023, 11, 14⟩, 10, -4⟩, ⟨⟨2023, 11, 21⟩, 5, -2⟩]
      ⟨2023, 11, 21⟩ ⟨2023, 11, 14⟩).2.1 (by decide),
   (dateRangeFilter_props [⟨⟨2023, 11, 14⟩, 10, -4⟩, ⟨⟨2023, 11, 21⟩, 5, -2⟩]
      ⟨2023, 11, 14⟩ ⟨2023, 11, 21⟩).2.2⟩

/-! ## Claim about the week-over-week metric -/

/-- C5 counterexample: on a single-point series the code computes NaN
and propagates it to the UI metric (no "not available" guard exists),
and on a zero-point series the `.iloc[-1]` indexing raises
`IndexError` — contradicting both parts of the claim. -/
theorem weeklyChangePct_cx :
    weeklyChangePct [5] = Except.ok PFloat.nan ∧
    weeklyChangePct [] = Except.error "IndexError" := by
  constructor
  · rfl
  · rfl

/-- C5 (amended): on every single-point commit-activity series the
week-over-week computation does not raise but yields NaN, which flows
to the UI metric unguarded; on the zero-point series the `.iloc[-1]`
indexing raises `IndexError`.  No "not available" value is produced in
either case. -/
theorem weeklyChangePct_short (t : Int) :
    weeklyChangePct [t] = Except.ok PFloat.nan ∧
    weeklyChangePct [] = Except.error "IndexError" := by
  constructor
  · rfl
  · rfl

/-! ## Claim about the contributor ranking -/

/-- C7: the contributor ranking orders logins descending by
`total_activity`, and any two logins with equal `total_activity` appear
in ascending login order, making the ranking deterministic: for
`ascending=False` pandas reverses the values and index, stably argsorts
ascending, and reverses the resulting indexer, so the ascending-login
order of the grouped index survives among ties.  Concretely, two
contributors tied at `total_activity = 10` rank as `["alice", "bob"]`. -/
theorem activity_by_user_order (rows : List ContribRow) :
    (activity_by_user rows).Pairwise
      (fun p q => q.2 < p.2 ∨ (q.2 = p.2 ∧ strLt p.1 q.1 = true)) ∧
    user_list [⟨"alice", 5, 3, 2⟩, ⟨"bob", 1, 2, 7⟩] = ["alice", "bob"] := by
  constructor
  · unfold activity_by_user sort_values_desc
    rw [List.pairwise_reverse]
    exact pairwise_stableSortByVal _
      (List.pairwise_reverse.mpr (groupSumActivity_keys rows))
  · decide

/-! ## Claim about the CSV loader -/

/-- C9: `load_data` is total — every `read_csv` outcome, including the
exceptions its docstring says are raised, is caught: a parsed frame is
returned unchanged (non-empty or not) and every handler returns the
empty `pd.DataFrame()` instead of re-raising. -/
theorem load_data_total (r : ReadCsvResult) :
    (∃ df, load_data r = Except.ok df) ∧
    (∀ df, r = ReadCsvResult.ok df → DataFrame.isEmptyDf df = false →
      load_data r = Except.ok df) ∧
    load_data ReadCsvResult.fileNotFoundError = Except.ok pdEmptyDataFrame ∧
    load_data ReadCsvResult.emptyDataError = Except.ok pdEmptyDataFrame ∧
    (∀ m, load_data (ReadCsvResult.otherError m) = Except.ok pdEmptyDataFrame) := by
  refine ⟨?_, ?_, rfl, rfl, fun m => rfl⟩
  · cases r with
    | ok df => exact ⟨df, rfl⟩
    | fileNotFoundError => exact ⟨pdEmptyDataFrame, rfl⟩
    | emptyDataError => exact ⟨pdEmptyDataFrame, rfl⟩
    | otherError m => exact ⟨pdEmptyDataFrame, rfl⟩
  · intro df hdf _
    subst hdf
    rfl

/-- C9 witness: a parsed non-empty frame is returned unchanged, and the
file-not-found handler returns the empty frame. -/
theorem load_data_total_witness :
    load_data (ReadCsvResult.ok ⟨[["1", "2"]]⟩) = Except.ok ⟨[["1", "2"]]⟩ ∧
    load_data ReadCsvResult.fileNotFoundError = Except.ok pdEmptyDataFrame :=
  ⟨(load_data_total (ReadCsvResult.ok ⟨[["1", "2"]]⟩)).2.1 ⟨[["1", "2"]]⟩ rfl rfl,
   (load_data_total ReadCsvResult.fileNotFoundError).2.2.1⟩
